import Mathlib

/-!
Shallow embedding of the SciRadar data-to-geometry engine
(`src/src/SciRadar.jsx`, embedded `<script>` section): tabular parsing
(`parseData`), automatic per-dimension range resolution
(`initDimensionConfig` / the auto branch of `drawChart`), manual range
edits (`updateDimensionControls` change handler), the value-to-ratio
polar mapping (`drawChart`, model point loop), and stable color
assignment (`initColors`).

JavaScript numbers are modelled as rationals (ℚ); strings as `List Char`.
-/

namespace SciRadar

/-- Whitespace recognised by JavaScript `String.prototype.trim` (the
characters that can occur in this engine's inputs). -/
def jsWhitespace (c : Char) : Bool :=
  c == ' ' || c == '\t' || c == '\n' || c == '\r' || c == '\x0b' || c == '\x0c'

/-- `text.trim()`: strip leading and trailing whitespace. -/
def trimList (s : List Char) : List Char :=
  ((s.dropWhile jsWhitespace).reverse.dropWhile jsWhitespace).reverse

/-- `str.split(sep)` for a single-character separator: JavaScript split
semantics (splitting the empty string yields `[""]`). -/
def splitOnChar (sep : Char) : List Char → List (List Char)
  | [] => [[]]
  | c :: rest =>
    let r := splitOnChar sep rest
    if c == sep then [] :: r
    else
      match r with
      | [] => [[c]]
      | h :: t => (c :: h) :: t

/-- Numeric value of a digit string (no sign, no dot). -/
def natOfDigits (ds : List Char) : ℕ :=
  ds.foldl (fun a c => a * 10 + (c.toNat - 48)) 0

/-- JavaScript `parseFloat`: skip leading whitespace, optional sign,
longest decimal-literal prefix `digits [. digits] [e [sign] digits]`;
`none` models a `NaN` result (no digits at all).  The special literal
`Infinity` is not representable in ℚ and is outside the inputs this
engine's claims range over. -/
def parseJsFloat (s : List Char) : Option ℚ :=
  let s0 := s.dropWhile jsWhitespace
  let signAndRest : ℚ × List Char :=
    match s0 with
    | '-' :: t => (-1, t)
    | '+' :: t => (1, t)
    | _ => (1, s0)
  let sign := signAndRest.1
  let s1 := signAndRest.2
  let intDigits := s1.takeWhile Char.isDigit
  let s2 := s1.dropWhile Char.isDigit
  let fracAndRest : List Char × List Char :=
    match s2 with
    | '.' :: t => (t.takeWhile Char.isDigit, t.dropWhile Char.isDigit)
    | _ => ([], s2)
  let fracDigits := fracAndRest.1
  let s3 := fracAndRest.2
  if intDigits.isEmpty && fracDigits.isEmpty then none
  else
    let mantissa : ℚ :=
      (natOfDigits intDigits : ℚ) + (natOfDigits fracDigits : ℚ) / 10 ^ fracDigits.length
    let exp : ℤ :=
      match s3 with
      | 'e' :: t =>
        let esignAndRest : ℤ × List Char :=
          match t with
          | '-' :: u => (-1, u)
          | '+' :: u => (1, u)
          | _ => (1, t)
        let eds := esignAndRest.2.takeWhile Char.isDigit
        if eds.isEmpty then 0 else esignAndRest.1 * natOfDigits eds
      | 'E' :: t =>
        let esignAndRest : ℤ × List Char :=
          match t with
          | '-' :: u => (-1, u)
          | '+' :: u => (1, u)
          | _ => (1, t)
        let eds := esignAndRest.2.takeWhile Char.isDigit
        if eds.isEmpty then 0 else esignAndRest.1 * natOfDigits eds
      | _ => 0
    some (sign * mantissa * (10 : ℚ) ^ exp)

/-- One transposed record of `chartData`: `{ subject: dim, model1: v1, ... }`.
JavaScript object properties are modelled as an association list in which
later assignments are prepended, so the first match is the latest write. -/
structure DataPoint where
  subject : List Char
  values : List (List Char × ℚ)
deriving DecidableEq

/-- Property read `dataPoint[model]`: the latest value written for `model`
(`none` models `undefined`). -/
def dpLookup (dp : DataPoint) (model : List Char) : Option ℚ :=
  (dp.values.find? (fun p => p.1 == model)).map (fun p => p.2)

/-- `parseFloat(row[i])` with the `isNaN(val) ? 0 : val` coercion of
`parseData`: a missing cell (`row[i]` is `undefined`) or an unparsable
cell yields `0`. -/
def cellValue (row : List (List Char)) (i : ℕ) : ℚ :=
  match row.get? i with
  | none => 0
  | some cell => (parseJsFloat cell).getD 0

/-- The `dataPoint` built for dimension `dim` at column index `dimIndex`:
`dataRows.forEach(row => { dataPoint[row[0]] = coerced value })`.
Writes are prepended so that `dpLookup` returns the last write. -/
def buildDataPoint (dataRows : List (List (List Char))) (dim : List Char)
    (dimIndex : ℕ) : DataPoint :=
  { subject := dim
    values := dataRows.foldl
      (fun acc row => (row.headD [], cellValue row (dimIndex + 1)) :: acc) [] }

/-- Result record of `parseData`. -/
structure ParseResult where
  chartData : List DataPoint
  models : List (List Char)
  dimensions : List (List Char)
deriving DecidableEq

/-- The trimmed, delimiter-split, cell-trimmed row table of `parseData`:
delimiter is tab if the first line contains a tab, else comma. -/
def parsedRows (text : List Char) : List (List (List Char)) :=
  let lines := splitOnChar '\n' (trimList text)
  let firstLine := lines.headD []
  let delimiter : Char := if firstLine.contains '\t' then '\t' else ','
  lines.map (fun row => (splitOnChar delimiter row).map trimList)

/-- `parseData(text)`: `null` when fewer than 2 rows remain, else the
transposed chart data, the model (series) name list and the dimension
list. -/
def parseData (text : List Char) : Option ParseResult :=
  let rows := parsedRows text
  if rows.length < 2 then none
  else
    let headers := rows.headD []
    let dataRows := rows.drop 1
    let dimensions := headers.drop 1
    let modelNames := dataRows.map (fun row => row.headD [])
    let chartData := dimensions.enum.map (fun p => buildDataPoint dataRows p.2 p.1)
    some { chartData := chartData, models := modelNames, dimensions := dimensions }

/-- `Math.min(...values)` for a non-empty list (the engine only takes the
minimum of the observed, non-empty value set of a dimension). -/
def listMin : List ℚ → ℚ
  | [] => 0
  | x :: xs => xs.foldl min x

/-- `Math.max(...values)` for a non-empty list. -/
def listMax : List ℚ → ℚ
  | [] => 0
  | x :: xs => xs.foldl max x

/-- The observed values of dimension `dim`, as collected in `drawChart`:
`chartData.filter(d => d.subject === dim).flatMap(d => models.map(m => d[m])).filter(v => !isNaN(v))`
(a missing property reads as `NaN` and is filtered out). -/
def valuesForDim (chartData : List DataPoint) (models : List (List Char))
    (dim : List Char) : List ℚ :=
  (chartData.filter (fun d => d.subject == dim)).flatMap
    (fun d => models.filterMap (fun m => dpLookup d m))

/-- Automatic range derivation shared by `initDimensionConfig` and the
auto-scale branch of `drawChart`: pad the observed min by ×0.9 and the
max by ×1.1, round outward (to multiples of 10 in integer-tick mode),
and clamp a negative rounded minimum to 0 when no observed value is
negative.  Returns `(min, max)`. -/
def resolveAutoRange (values : List ℚ) (integerTicks : Bool) : ℚ × ℚ :=
  let minValue := listMin values
  let maxValue := listMax values
  if integerTicks then
    let rMin : ℚ := (Rat.floor (minValue * (9 / 10) / 10) : ℤ) * 10
    let rMax : ℚ := (Rat.ceil (maxValue * (11 / 10) / 10) : ℤ) * 10
    let rMin' : ℚ := if rMin < 0 ∧ 0 ≤ minValue then 0 else rMin
    (rMin', rMax)
  else
    ((Rat.floor (minValue * (9 / 10)) : ℤ), (Rat.ceil (maxValue * (11 / 10)) : ℤ))

/-- `Math.round`: round half toward positive infinity, `⌊x + 1/2⌋`. -/
def jsRound (x : ℚ) : ℤ :=
  Rat.floor (x + 1 / 2)

/-- The min/max change handler of `updateDimensionControls`: the entered
value is rounded in integer-tick mode (`Math.round`), then an edit of
`min` to a value ≥ `max` is clamped to `max − step`, and an edit of
`max` to a value ≤ `min` is clamped to `min + step`, with `step` 1 in
integer mode and 0.1 otherwise.  `cur` is the current `(min, max)`
pair; `isMin` selects which field is edited.

`Math.round` (round half toward positive infinity) is `jsRound`. -/
def applyManualEdit (cur : ℚ × ℚ) (isMin : Bool) (input : ℚ)
    (integerTicks : Bool) : ℚ × ℚ :=
  let value : ℚ := if integerTicks then ((jsRound input : ℤ) : ℚ) else input
  let step : ℚ := if integerTicks then 1 else 1 / 10
  if isMin then
    let v := if cur.2 ≤ value then cur.2 - step else value
    (v, cur.2)
  else
    let v := if value ≤ cur.1 then cur.1 + step else value
    (cur.1, v)

/-- The value-to-ratio mapping of `drawChart`'s model point loop:
`ratio = 0` unless `max > min`; otherwise the (possibly reversed)
normalisation clamped to `[0, 1]` by `Math.max(0, Math.min(1, ratio))`. -/
def ratioFor (rmin rmax : ℚ) (reverse : Bool) (value : ℚ) : ℚ :=
  if rmin < rmax then
    let r : ℚ :=
      if reverse then (rmax - value) / (rmax - rmin)
      else (value - rmin) / (rmax - rmin)
    max 0 (min 1 r)
  else 0

/-- The fixed palette `DEFAULT_COLORS`. -/
def defaultColors : List String :=
  ["#34a853", "#ea4335", "#4285f4", "#fbbc05", "#8e44ad", "#2c3e50", "#e67e22"]

/-- Lookup in a color assignment (JavaScript object keyed by model name,
latest write first). -/
def colorOf (colors : List (List Char × String)) (model : List Char) :
    Option String :=
  (colors.find? (fun p => p.1 == model)).map (fun p => p.2)

/-- Worker for `initColors` over an index-annotated model list. -/
def initColorsAux : List (ℕ × List Char) → List (List Char × String) →
    List (List Char × String)
  | [], colors => colors
  | (i, m) :: rest, colors =>
    initColorsAux rest
      (if (colorOf colors m).isSome then colors
       else (m, defaultColors.getD (i % defaultColors.length) "") :: colors)

/-- `initColors(modelList)`: each model not yet present in `colors`
receives `DEFAULT_COLORS[i % DEFAULT_COLORS.length]` for its index `i`
in `modelList`; present entries are untouched. -/
def initColors (modelList : List (List Char))
    (colors : List (List Char × String)) : List (List Char × String) :=
  initColorsAux modelList.enum colors

/-! ## Theorems -/

/-- Claim C2: every computed normalized ratio lies in `[0, 1]`, for every
range (reverse or not, degenerate or not) and every raw value; out-of-range
raw values are silently clamped, never an error (the mapping is a total
function into `[0, 1]`). -/
theorem ratio_in_unit_interval (rmin rmax : ℚ) (reverse : Bool) (v : ℚ) :
    0 ≤ ratioFor rmin rmax reverse v ∧ ratioFor rmin rmax reverse v ≤ 1 := by
  unfold ratioFor
  by_cases h : rmin < rmax
  · rw [if_pos h]
    exact ⟨le_max_left 0 _, max_le (by norm_num) (min_le_left 1 _)⟩
  · rw [if_neg h]
    norm_num

/-- Claim C3: on a non-degenerate range, the reverse-mode ratio is
antitone in the raw value and the normal-mode ratio is monotone: for
`v1 < v2`, reverse mode yields `ratio v1 ≥ ratio v2` and normal mode
yields `ratio v1 ≤ ratio v2`. -/
theorem ratio_reverse_antitone (rmin rmax v1 v2 : ℚ) (hr : rmin < rmax)
    (hv : v1 < v2) :
    ratioFor rmin rmax true v2 ≤ ratioFor rmin rmax true v1 ∧
    ratioFor rmin rmax false v1 ≤ ratioFor rmin rmax false v2 := by
  have hd : (0 : ℚ) < rmax - rmin := by linarith
  unfold ratioFor
  simp only [if_pos hr, if_true, Bool.false_eq_true, if_false]
  constructor
  · refine max_le_max le_rfl (min_le_min le_rfl ?_)
    gcongr
  · refine max_le_max le_rfl (min_le_min le_rfl ?_)
    gcongr

/-- Witness for `ratio_reverse_antitone` on the range `[0, 10]` with raw
values `3 < 7`. -/
theorem ratio_reverse_antitone_witness :
    ratioFor 0 10 true 7 ≤ ratioFor 0 10 true 3 ∧
    ratioFor 0 10 false 3 ≤ ratioFor 0 10 false 7 :=
  ratio_reverse_antitone 0 10 3 7 (by norm_num) (by norm_num)

/-- Claim C5: on a degenerate range (`max = min`) the computed ratio is
`0` for every raw value (the `max > min` guard keeps the division from
ever being evaluated). -/
theorem degenerate_range_ratio_zero (rmin rmax : ℚ) (h : rmax = rmin)
    (reverse : Bool) (v : ℚ) : ratioFor rmin rmax reverse v = 0 := by
  unfold ratioFor
  rw [if_neg]
  subst h
  exact lt_irrefl rmax

/-- Witness for `degenerate_range_ratio_zero` at the concrete degenerate
range `min = max = 5` and raw value `3`. -/
theorem degenerate_range_ratio_zero_witness : ratioFor 5 5 true 3 = 0 :=
  degenerate_range_ratio_zero 5 5 rfl true 3

/-- Claim C4 (counterexample): an auto-derived range does not always
satisfy `max > min` — when every observed value is `0` the derivation
returns `{min: 0, max: 0}`, so a range re-derived in auto-scale mode can
be degenerate. -/
theorem auto_range_can_be_degenerate :
    ¬ ((resolveAutoRange [0] true).1 < (resolveAutoRange [0] true).2) := by
  with_unfolding_all decide

/-- Claim C4 (amended): every manual min/max edit leaves the edited
dimension with `max > min` — the entered value is rounded in integer
mode, an edit of `min` to a (rounded) value ≥ `max` is clamped to
`max − step` and an edit of `max` to a (rounded) value ≤ `min` to
`min + step` (`step` = 1 in integer mode, 0.1 otherwise) — but ranges
derived by auto-scaling need not satisfy `max > min` (all observed
values `0` give the degenerate range `{0, 0}`). -/
theorem manual_edit_gives_min_lt_max (cur : ℚ × ℚ) (isMin : Bool)
    (input : ℚ) (integerTicks : Bool) :
    (applyManualEdit cur isMin input integerTicks).1 <
      (applyManualEdit cur isMin input integerTicks).2 := by
  unfold applyManualEdit
  cases isMin <;> dsimp only <;> split_ifs <;> dsimp only <;> linarith

/-- Claim C6 (counterexample): for a dimension where every series reports
the identical value `5`, the auto-resolved integer-mode range does not
collapse (`min ≠ max`) and the computed ratio is not `0`. -/
theorem identical_five_not_collapsed :
    (resolveAutoRange [5, 5] true).1 ≠ (resolveAutoRange [5, 5] true).2 ∧
    ratioFor (resolveAutoRange [5, 5] true).1 (resolveAutoRange [5, 5] true).2
      false 5 ≠ 0 := by
  with_unfolding_all decide

/-- Claim C6 (amended): for a dimension where every series reports the
identical value `5`, the auto-resolved range is `{0, 10}` in integer
mode and `{4, 6}` otherwise — not collapsed — and every series' ratio
for that axis is `1/2`; the range does collapse (with ratio `0`) when
the identical value is `0`. -/
theorem identical_value_auto_range :
    resolveAutoRange [5, 5] true = (0, 10) ∧
    resolveAutoRange [5, 5] false = (4, 6) ∧
    ratioFor 0 10 false 5 = 1 / 2 ∧
    ratioFor 4 6 false 5 = 1 / 2 ∧
    resolveAutoRange [0, 0] true = (0, 0) ∧
    ratioFor 0 0 false 0 = 0 := by
  with_unfolding_all decide

/-- The scenario input `"Model\tA\tB\nX\t10\t90\nY\t20\t10"`. -/
def sampleInput : List Char := "Model\tA\tB\nX\t10\t90\nY\t20\t10".toList

/-- The parse result of `sampleInput` (writes are stored latest-first). -/
def sampleParsed : ParseResult :=
  { chartData :=
      [{ subject := "A".toList, values := [("Y".toList, 20), ("X".toList, 10)] },
       { subject := "B".toList, values := [("Y".toList, 10), ("X".toList, 90)] }]
    models := ["X".toList, "Y".toList]
    dimensions := ["A".toList, "B".toList] }

/-- Claim C1: parsing `"Model\tA\tB\nX\t10\t90\nY\t20\t10"` yields
dimensions `["A","B"]` and series `["X","Y"]`, and the automatic
integer-mode range for dimension `A` (observed 10 and 20) is
`{min: 0, max: 30}`. -/
theorem sample_parse_and_auto_range :
    parseData sampleInput = some sampleParsed ∧
    sampleParsed.dimensions = ["A".toList, "B".toList] ∧
    sampleParsed.models = ["X".toList, "Y".toList] ∧
    resolveAutoRange
      (valuesForDim sampleParsed.chartData sampleParsed.models "A".toList) true
      = (0, 30) := by
  with_unfolding_all decide

/-- Claim C7: `parseData` returns `none` exactly when fewer than 2 lines
remain after trimming the input, and in particular the empty input
parses to `none` (and, the function being total, never to an error). -/
theorem parse_none_iff_too_few_lines :
    (∀ text : List Char,
      parseData text = none ↔ (splitOnChar '\n' (trimList text)).length < 2) ∧
    parseData [] = none := by
  have hlen : ∀ text : List Char,
      (parsedRows text).length = (splitOnChar '\n' (trimList text)).length := by
    intro text
    unfold parsedRows
    simp
  constructor
  · intro text
    by_cases h : (parsedRows text).length < 2
    · simp only [parseData, if_pos h, true_iff]
      exact hlen text ▸ h
    · simp only [parseData, if_neg h]
      constructor
      · intro hc
        cases hc
      · intro hc
        exact absurd ((hlen text).symm ▸ hc) h
  · with_unfolding_all decide

/-- Witness for `parse_none_iff_too_few_lines`: a one-line input parses
to `none`. -/
theorem parse_none_iff_too_few_lines_witness : parseData "ab".toList = none :=
  (parse_none_iff_too_few_lines.1 "ab".toList).mpr (by with_unfolding_all decide)

/-- Folding prepend-writes over a list produces the reversed map. -/
theorem foldl_prepend_eq_reverse_map {α β : Type} (f : α → β) :
    ∀ (l : List α) (acc : List β),
      l.foldl (fun a x => f x :: a) acc = (l.map f).reverse ++ acc := by
  intro l
  induction l with
  | nil => intro acc; rfl
  | cons x xs ih =>
    intro acc
    simp [List.foldl_cons, ih (f x :: acc)]

/-- The value a `dataPoint` holds for `name` is the coerced cell of the
last data row whose first cell is `name` (JavaScript property writes:
last write wins). -/
theorem dpLookup_buildDataPoint (dataRows : List (List (List Char)))
    (dim name : List Char) (i : ℕ) :
    dpLookup (buildDataPoint dataRows dim i) name =
      (dataRows.reverse.find? (fun row => row.headD [] == name)).map
        (fun row => cellValue row (i + 1)) := by
  unfold dpLookup buildDataPoint
  rw [foldl_prepend_eq_reverse_map (fun row => (row.headD [], cellValue row (i + 1)))]
  rw [List.append_nil, ← List.map_reverse, List.find?_map, Option.map_map]
  rfl

/-- A cell that is missing or fails `parseFloat` is coerced to `0`. -/
theorem cellValue_eq_zero_of_fail (row : List (List Char)) (i : ℕ)
    (h : row.get? i = none ∨
      ∃ cell, row.get? i = some cell ∧ parseJsFloat cell = none) :
    cellValue row i = 0 := by
  unfold cellValue
  rcases h with h | ⟨cell, hc, hp⟩
  · rw [h]
  · rw [hc]
    dsimp only
    rw [hp]
    rfl

/-- Claim C8: a data cell that fails to parse as a number (missing cell
or unparsable text) is stored as `0` — both at the level of the cell
coercion and of the value the model holds for the (dimension, series)
pair whose last matching row has such a cell — and a table with at
least a header row and one data row always parses to a result (no
error). -/
theorem unparsable_cells_coerce_to_zero :
    (∀ (row : List (List Char)) (i : ℕ),
      (row.get? i = none ∨
        ∃ cell, row.get? i = some cell ∧ parseJsFloat cell = none) →
      cellValue row i = 0) ∧
    (∀ (dataRows : List (List (List Char))) (dim name : List Char) (i : ℕ)
      (lastRow : List (List Char)),
      dataRows.reverse.find? (fun row => row.headD [] == name) = some lastRow →
      (lastRow.get? (i + 1) = none ∨
        ∃ cell, lastRow.get? (i + 1) = some cell ∧ parseJsFloat cell = none) →
      dpLookup (buildDataPoint dataRows dim i) name = some 0) ∧
    (∀ text : List Char, 2 ≤ (parsedRows text).length →
      ∃ r, parseData text = some r) := by
  refine ⟨cellValue_eq_zero_of_fail, ?_, ?_⟩
  · intro dataRows dim name i lastRow hfind hfail
    rw [dpLookup_buildDataPoint, hfind, Option.map_some']
    rw [cellValue_eq_zero_of_fail lastRow (i + 1) hfail]
  · intro text h
    unfold parseData
    simp only [if_neg (by omega : ¬ (parsedRows text).length < 2)]
    exact ⟨_, rfl⟩

/-- Witness for `unparsable_cells_coerce_to_zero`: the non-numeric cell
`"abc"` of the only data row is stored as `0` for series `X`, and the
two-line table parses to a result. -/
theorem unparsable_cells_coerce_to_zero_witness :
    dpLookup (buildDataPoint [["X".toList, "abc".toList]] "A".toList 0)
      "X".toList = some 0 ∧
    ∃ r, parseData "Model,A\nX,abc".toList = some r :=
  ⟨unparsable_cells_coerce_to_zero.2.1 [["X".toList, "abc".toList]] "A".toList
      "X".toList 0 ["X".toList, "abc".toList] (by with_unfolding_all decide)
      (Or.inr ⟨"abc".toList, by with_unfolding_all decide,
        by with_unfolding_all decide⟩),
   unparsable_cells_coerce_to_zero.2.2 "Model,A\nX,abc".toList
      (by with_unfolding_all decide)⟩

/-- Lookup after prepending one assignment. -/
theorem colorOf_cons (n : List Char) (col : String)
    (colors : List (List Char × String)) (m : List Char) :
    colorOf ((n, col) :: colors) m =
      if n == m then some col else colorOf colors m := by
  simp only [colorOf, List.find?_cons]
  cases h : n == m <;> simp [h]

/-- Entries already present in the assignment survive `initColorsAux`. -/
theorem initColorsAux_preserved :
    ∀ (l : List (ℕ × List Char)) (colors : List (List Char × String))
      (m : List Char) (c : String),
      colorOf colors m = some c →
      colorOf (initColorsAux l colors) m = some c := by
  intro l
  induction l with
  | nil =>
    intro colors m c h
    simpa [initColorsAux] using h
  | cons p rest ih =>
    intro colors m c h
    obtain ⟨i, n⟩ := p
    simp only [initColorsAux]
    by_cases hn : (colorOf colors n).isSome
    · rw [if_pos hn]
      exact ih colors m c h
    · rw [if_neg hn]
      apply ih
      rw [colorOf_cons]
      have hnm : (n == m) = false := by
        cases hbe : n == m
        · rfl
        · have : n = m := by simpa using hbe
          subst this
          rw [h] at hn
          simp at hn
      rw [hnm]
      simpa using h

/-- The index at which `initColors`' `forEach` first sees model `m`
(the first-seen index of §4.6). -/
def firstIdxOf (m : List Char) : List (List Char) → ℕ
  | [] => 0
  | x :: xs => if x == m then 0 else firstIdxOf m xs + 1

/-- A model absent from the assignment is assigned the palette color of
its first index in the (index-annotated) model list. -/
theorem initColorsAux_assigns :
    ∀ (l : List (List Char)) (k : ℕ) (colors : List (List Char × String))
      (m : List Char),
      colorOf colors m = none → m ∈ l →
      colorOf (initColorsAux (l.enumFrom k) colors) m =
        some (defaultColors.getD ((k + firstIdxOf m l) % defaultColors.length) "") := by
  intro l
  induction l with
  | nil =>
    intro k colors m _ hmem
    cases hmem
  | cons n rest ih =>
    intro k colors m hnone hmem
    rw [List.enumFrom_cons]
    simp only [initColorsAux]
    by_cases hnm : n = m
    · subst hnm
      rw [if_neg (by rw [hnone]; simp)]
      have hidx : firstIdxOf n (n :: rest) = 0 := by
        simp [firstIdxOf]
      rw [hidx, Nat.add_zero]
      apply initColorsAux_preserved
      rw [colorOf_cons]
      simp
    · have hmem' : m ∈ rest := by
        rcases List.mem_cons.mp hmem with h | h
        · exact absurd h.symm hnm
        · exact h
      have hbe0 : (n == m) = false := by
        cases hx : n == m
        · rfl
        · exact absurd (by simpa using hx) hnm
      have hidx : firstIdxOf m (n :: rest) = firstIdxOf m rest + 1 := by
        simp [firstIdxOf, hbe0]
      rw [hidx]
      have harith : k + (firstIdxOf m rest + 1) = (k + 1) + firstIdxOf m rest := by
        omega
      rw [harith]
      by_cases hn : (colorOf colors n).isSome
      · rw [if_pos hn]
        exact ih (k + 1) colors m hnone hmem'
      · rw [if_neg hn]
        apply ih (k + 1)
        · rw [colorOf_cons]
          have hbe : (n == m) = false := by
            cases hx : n == m
            · rfl
            · exact absurd (by simpa using hx) hnm
          rw [hbe]
          simpa using hnone
        · exact hmem'

/-- Claim C9: color assignment is stable — a series already present in
the assignment keeps its color when the assigner runs again, and a
series absent from the assignment gets
`DEFAULT_COLORS[index % DEFAULT_COLORS.length]` for its first index in
the model list. -/
theorem color_assignment_stable (modelList : List (List Char))
    (colors : List (List Char × String)) (m : List Char) :
    (∀ c, colorOf colors m = some c →
      colorOf (initColors modelList colors) m = some c) ∧
    (colorOf colors m = none → m ∈ modelList →
      colorOf (initColors modelList colors) m =
        some (defaultColors.getD
          (firstIdxOf m modelList % defaultColors.length) "")) := by
  constructor
  · intro c hc
    exact initColorsAux_preserved _ _ _ _ hc
  · intro h1 h2
    have h := initColorsAux_assigns modelList 0 colors m h1 h2
    simpa [initColors, List.enum] using h

/-- Witness model list for `color_assignment_stable`. -/
def witnessModels : List (List Char) := ["X".toList, "Y".toList]

/-- Witness pre-existing assignment for `color_assignment_stable`. -/
def witnessAssignment : List (List Char × String) := [("X".toList, "#123456")]

/-- Witness for `color_assignment_stable`: rerunning the assigner keeps
`X`'s user color and gives the new series `Y` the palette color of
index 1. -/
theorem color_assignment_stable_witness :
    colorOf (initColors witnessModels witnessAssignment) "X".toList
      = some "#123456" ∧
    colorOf (initColors witnessModels witnessAssignment) "Y".toList
      = some "#ea4335" :=
  ⟨(color_assignment_stable witnessModels witnessAssignment "X".toList).1
      "#123456" (by with_unfolding_all decide),
   ((color_assignment_stable witnessModels witnessAssignment "Y".toList).2
      (by with_unfolding_all decide) (by with_unfolding_all decide)).trans
      (by with_unfolding_all decide)⟩

/-- Claim C10: duplicate series names are kept once per data row in the
model list (its length is the number of data rows), while each
per-dimension record stores, for a given name, the single value coming
from the last data row with that name (last write wins). -/
theorem duplicate_series_last_write_wins (text : List Char) (r : ParseResult)
    (hr : parseData text = some r) :
    r.models = ((parsedRows text).drop 1).map (fun row => row.headD []) ∧
    r.models.length = (parsedRows text).length - 1 ∧
    (∀ (j : ℕ) (dp : DataPoint), r.chartData[j]? = some dp →
      ∀ name : List Char,
        dpLookup dp name =
          (((parsedRows text).drop 1).reverse.find?
            (fun row => row.headD [] == name)).map
            (fun row => cellValue row (j + 1))) := by
  unfold parseData at hr
  by_cases h : (parsedRows text).length < 2
  · rw [if_pos h] at hr
    cases hr
  · rw [if_neg h] at hr
    have hr' := (Option.some.injEq _ _).mp hr
    subst hr'
    refine ⟨rfl, ?_, ?_⟩
    · simp
    · intro j dp hdp name
      simp only [List.getElem?_map, List.getElem?_enum] at hdp
      rcases hx : (List.drop 1 ((parsedRows text).headD []))[j]? with _ | dim0 <;>
        rw [hx] at hdp
      · cases hdp
      · simp only [Option.map_some'] at hdp
        have hdp' := (Option.some.injEq _ _).mp hdp
        subst hdp'
        rw [dpLookup_buildDataPoint]

/-- Witness input with a duplicated series name `X`. -/
def dupInput : List Char := "Model\tA\nX\t1\nY\t2\nX\t3".toList

/-- Parse result of `dupInput`: `X` appears once per data row and the
record for dimension `A` keeps the last write (writes stored
latest-first). -/
def dupParsed : ParseResult :=
  { chartData :=
      [⟨"A".toList, [("X".toList, 3), ("Y".toList, 2), ("X".toList, 1)]⟩]
    models := ["X".toList, "Y".toList, "X".toList]
    dimensions := ["A".toList] }

/-- Witness for `duplicate_series_last_write_wins` on `dupInput`: the
model list keeps both occurrences of `X`, has one entry per data row,
and the stored value for `X` is the one of the last `X` row. -/
theorem duplicate_series_last_write_wins_witness :
    dupParsed.models = ((parsedRows dupInput).drop 1).map (fun row => row.headD []) ∧
    dupParsed.models.length = (parsedRows dupInput).length - 1 ∧
    dpLookup
      ⟨"A".toList, [("X".toList, 3), ("Y".toList, 2), ("X".toList, 1)]⟩
      "X".toList =
      (((parsedRows dupInput).drop 1).reverse.find?
        (fun row => row.headD [] == "X".toList)).map
        (fun row => cellValue row (0 + 1)) := by
  have h := duplicate_series_last_write_wins dupInput dupParsed
    (by with_unfolding_all decide)
  exact ⟨h.1, h.2.1, h.2.2 0 _ (by with_unfolding_all decide) "X".toList⟩

end SciRadar
